import Mathlib

/-!
Verification development for the portfolio-analysis pipeline
(`portfolio_analysis.py`): percentile breakpoints, portfolio formation
over the Cartesian product of per-characteristic buckets, and per-portfolio
average outcomes with the high-minus-low spread.

The Python code is shallowly embedded: dynamic values become the `PyVal`
sum type, a `pandas.DataFrame` becomes a list of named columns with
row-major numeric data over `ℚ`, raised exceptions become `Except Err`,
and a floating-point NaN produced by `np.mean` of an empty slice becomes
`none : Option ℚ`.  The numpy broadcast in `portfolio_formation` requires
the dataframe's width to equal the number of characteristics; the
embedding pairs rows with the per-characteristic bounds positionally
(`List.zip`), which coincides with the numpy semantics exactly when the
widths match, and every theorem below either fixes concrete matching
widths or carries the width hypothesis explicitly.
-/

/-- Exceptions raised by the embedded code.  `notAList` and
`notDataFrame` are the two explicit `ValueError`s raised by the source;
`percentileRange` is numpy's `ValueError` for a percentile outside
[0, 100]; `lengthMismatch` is numpy's `ValueError` when `np.average`
receives weights whose length differs from the averaged array;
`zeroDivision` is numpy's `ZeroDivisionError` for weights summing to 0;
`indexError` models Python's `IndexError`; `keyError` a missing
dataframe column; `emptyData` numpy's error for a percentile of an
empty array. -/
inductive Err where
  | notDataFrame
  | notAList
  | indexError
  | keyError
  | percentileRange
  | emptyData
  | lengthMismatch
  | zeroDivision
deriving DecidableEq

/-- A pandas DataFrame: ordered named columns and row-major numeric data.
Rows are assumed rectangular (`r.length = colNames.length`). -/
structure DataFrame where
  colNames : List String
  rows : List (List ℚ)
deriving DecidableEq

/-- A dynamic Python value, as far as the embedded code inspects one. -/
inductive PyVal where
  | pyList (l : List ℚ)
  | pyDataFrame (df : DataFrame)
  | pyFloat (q : ℚ)
  | pyStr (s : String)
  | pyNone
deriving DecidableEq

/-- `self.dataframe[feature].values`: the named column, or a `KeyError`. -/
def DataFrame.col (df : DataFrame) (name : String) : Except Err (List ℚ) :=
  match df.colNames.findIdx? (fun c => c == name) with
  | none => .error .keyError
  | some i => .ok (df.rows.map (fun r => r.getD i 0))

/-- Linear interpolation between the order statistics of the
already-sorted data `s` at the virtual index `h`: the value
interpolates between the entries at `⌊h⌋` and `⌊h⌋ + 1`, clamping to
the last entry when `⌊h⌋` is already the last position. -/
def interpAt (s : List ℚ) (h : ℚ) : ℚ :=
  if ⌊h⌋₊ + 1 < s.length then
    s.getD ⌊h⌋₊ 0 + (h - (⌊h⌋₊ : ℚ)) * (s.getD (⌊h⌋₊ + 1) 0 - s.getD ⌊h⌋₊ 0)
  else s.getD (s.length - 1) 0

/-- The empirical percentile function with linear interpolation between
order statistics (numpy's default `linear` method) evaluated on the
already-sorted data `s` at percentile `q`: the virtual index is
`h = (len - 1) * q / 100`. -/
def interp (s : List ℚ) (q : ℚ) : ℚ :=
  interpAt s (((s.length : ℚ) - 1) * q / 100)

/-- `np.percentile(vals, qs)`: checks all percentiles lie in [0, 100]
(numpy raises `ValueError` otherwise), then evaluates the empirical
percentile function of the sorted data at each requested percentile.
A percentile of an empty array is an error in numpy. -/
def npPercentile (vals : List ℚ) (qs : List ℚ) : Except Err (List ℚ) :=
  if qs.any (fun q => decide (q < 0) || decide (100 < q)) then .error .percentileRange
  else if vals.isEmpty then .error .emptyData
  else .ok (qs.map (interp (List.insertionSort (· ≤ ·) vals)))

/-- `np.mean(l)`: `none` (a NaN, raised only as a runtime warning)
on an empty slice, otherwise the arithmetic mean. -/
def np_mean (l : List ℚ) : Option ℚ :=
  if l.isEmpty then none else some (l.sum / l.length)

/-- `np.average(l, weights=w)`: numpy raises when the weight vector's
length differs from the averaged array's, or when the weights sum to
zero; otherwise the weight-normalized weighted average. -/
def np_average (l w : List ℚ) : Except Err ℚ :=
  if l.length ≠ w.length then .error .lengthMismatch
  else if w.sum = 0 then .error .zeroDivision
  else .ok ((((l.zip w).map (fun xw => xw.1 * xw.2)).sum) / w.sum)

namespace PortfolioAnalysis

/-- `PortfolioAnalysis.__init__`: rejects anything that is not a
DataFrame with a `ValueError`, otherwise stores the table unchanged. -/
def init (x : PyVal) : Except Err DataFrame :=
  match x with
  | .pyDataFrame df => .ok df
  | _ => .error .notDataFrame

/-- `if percentiles_list[0] != 0: percentiles_list.insert(0, 0)`:
prepend 0 when the sorted list's first entry is not 0. -/
def ensureZero (s : List ℚ) : List ℚ :=
  if s.headD 0 ≠ 0 then 0 :: s else s

/-- The normalization step inside `breakpoint`, applied to the
already-sorted percentile list: prepend 0 when the first entry is not 0,
then append 100 when the (possibly extended) list's last entry is
not 100. -/
def normalizeSpec (s : List ℚ) : List ℚ :=
  if (ensureZero s).getLastD 0 ≠ 100 then ensureZero s ++ [100] else ensureZero s

/-- The body of `breakpoint`'s per-feature loop: type-check the spec
(`ValueError` unless it is a list), sort it, index its first element
(Python's `percentiles_list[0]`, an `IndexError` on the empty list),
normalize, look the column up, and call `np.percentile`. -/
def breakpointStep (df : DataFrame) (fp : String × PyVal) :
    Except Err (String × List ℚ) :=
  match fp.2 with
  | .pyList l =>
    match List.insertionSort (· ≤ ·) l with
    | [] => .error .indexError
    | a :: as =>
      match df.col fp.1 with
      | .error e => .error e
      | .ok vals =>
        match npPercentile vals (normalizeSpec (a :: as)) with
        | .error e => .error e
        | .ok bs => .ok (fp.1, bs)
  | _ => .error .notAList

/-- `PortfolioAnalysis.breakpoint`: iterate `breakpointStep` over the
feature → percentile-spec mapping in insertion order, stopping at the
first raised exception, and collect the feature → breakpoints mapping. -/
def breakpoint (df : DataFrame) :
    List (String × PyVal) → Except Err (List (String × List ℚ))
  | [] => .ok []
  | fp :: rest =>
    match breakpointStep df fp with
    | .error e => .error e
    | .ok b =>
      match breakpoint df rest with
      | .error e => .error e
      | .ok bs => .ok (b :: bs)

/-- `∏ num_breakpoints`, the number `p` of portfolio columns. -/
def prodNat (l : List ℕ) : ℕ := l.foldr (· * ·) 1

/-- `itertools.product(*[range(k) for k in ks])` in its enumeration
order: the first component varies slowest, the last varies fastest. -/
def productRanges : List ℕ → List (List ℕ)
  | [] => [[]]
  | k :: ks => (List.range k).flatMap (fun i => (productRanges ks).map (i :: ·))

/-- `breakpoints_start` for one bucket combination: the lower breakpoint
of the chosen bucket of each characteristic, in dict order. -/
def bucketStarts (bps : List (String × List ℚ)) (c : List ℕ) : List ℚ :=
  (bps.zip c).map (fun fbi => fbi.1.2.getD fbi.2 0)

/-- `breakpoints_end` for one bucket combination: the upper breakpoint
of the chosen bucket of each characteristic, in dict order. -/
def bucketEnds (bps : List (String × List ℚ)) (c : List ℕ) : List ℚ :=
  (bps.zip c).map (fun fbi => fbi.1.2.getD (fbi.2 + 1) 0)

/-- `np.sum((values >= starts) & (values <= ends), axis=1)` for one row:
the number of characteristics whose value lies inside the combination's
closed breakpoint interval. -/
def rowLabel (r s e : List ℚ) : ℕ :=
  (r.zip (s.zip e)).countP (fun vse => decide (vse.2.1 ≤ vse.1) && decide (vse.1 ≤ vse.2.2))

/-- `PortfolioAnalysis.portfolio_formation`: the n × p label table whose
column for combination `c` holds, for each observation, the count of
characteristics falling inside `c`'s closed breakpoint intervals. -/
def portfolio_formation (df : DataFrame) (bps : List (String × List ℚ)) :
    List (List ℕ) :=
  let ks := bps.map (fun fb => fb.2.length - 1)
  let combos := productRanges ks
  df.rows.map (fun r => combos.map (fun c => rowLabel r (bucketStarts bps c) (bucketEnds bps c)))

/-- `portfolio_label[:, i]`: the i-th column of the label table. -/
def colOf (labels : List (List ℚ)) (i : ℕ) : List ℚ :=
  labels.map (fun r => r.getD i 0)

/-- `outcome[np.where(portfolio_label[:, i] == i+1)]`: the outcomes of
the observations whose label in column `i` equals `i + 1`. -/
def selOf (labels : List (List ℚ)) (outcome : List ℚ) (i : ℕ) : List ℚ :=
  ((colOf labels i).zip outcome).filterMap
    (fun vo => if vo.1 = (i : ℚ) + 1 then some vo.2 else none)

/-- NaN-propagating subtraction of the two `average_outcome` entries. -/
def optSub : Option ℚ → Option ℚ → Option ℚ
  | some a, some b => some (a - b)
  | _, _ => none

/-- One iteration of the averaging loop: `np.mean` of the selected
outcomes when `weight is None` (never raises; NaN on an empty slice),
else `np.average` of the selected outcomes against the FULL weight
vector, exactly as the source passes it. -/
def entryOf (labels : List (List ℚ)) (outcome : List ℚ)
    (weight : Option (List ℚ)) (i : ℕ) : Except Err (Option ℚ) :=
  match weight with
  | none => .ok (np_mean (selOf labels outcome i))
  | some w =>
    match np_average (selOf labels outcome i) w with
    | .error e => .error e
    | .ok v => .ok (some v)

/-- The `for i in range(p)` loop of `average_portfolio_values`, raising
at the first failing iteration. -/
def avgLoop (labels : List (List ℚ)) (outcome : List ℚ)
    (weight : Option (List ℚ)) : List ℕ → Except Err (List (Option ℚ))
  | [] => .ok []
  | i :: is =>
    match entryOf labels outcome weight i with
    | .error e => .error e
    | .ok v =>
      match avgLoop labels outcome weight is with
      | .error e => .error e
      | .ok vs => .ok (v :: vs)

/-- `PortfolioAnalysis.average_portfolio_values`: one average per
portfolio column, then the high-minus-low spread
`average_outcome[-1] - average_outcome[0]` (an `IndexError` when the
table has no columns). -/
def average_portfolio_values (labels : List (List ℚ)) (outcome : List ℚ)
    (weight : Option (List ℚ)) : Except Err (List (Option ℚ) × Option ℚ) :=
  let p := (labels.headD []).length
  match avgLoop labels outcome weight (List.range p) with
  | .error e => .error e
  | .ok avg =>
    match avg.getLast?, avg.head? with
    | some a, some b => .ok (avg, optSub a b)
    | _, _ => .error .indexError

end PortfolioAnalysis
namespace PortfolioAnalysis

lemma avgLoop_none_eq (labels : List (List ℚ)) (outcome : List ℚ) :
    ∀ is : List ℕ, avgLoop labels outcome none is =
      .ok (is.map (fun i => np_mean (selOf labels outcome i)))
  | [] => rfl
  | i :: is => by
    simp [avgLoop, entryOf, avgLoop_none_eq labels outcome is]

lemma avp_ok_of (labels : List (List ℚ)) (outcome : List ℚ)
    (weight : Option (List ℚ)) (avg : List (Option ℚ)) (a b : Option ℚ)
    (h : avgLoop labels outcome weight (List.range (labels.headD []).length) = .ok avg)
    (ha : avg.getLast? = some a) (hb : avg.head? = some b) :
    average_portfolio_values labels outcome weight = .ok (avg, optSub a b) := by
  simp only [average_portfolio_values, h, ha, hb]

/-- C9: constructing the pipeline object from anything that is not a
DataFrame raises an error (a `ValueError`, not a silent coercion), and
constructing it from a DataFrame succeeds with exactly the given table
stored. -/
theorem claim_C9 (x : PyVal) :
    (∀ df, x = .pyDataFrame df → init x = .ok df) ∧
    ((∀ df, x ≠ .pyDataFrame df) → init x = .error .notDataFrame) := by
  constructor
  · intro df h; subst h; rfl
  · intro h; cases x with
    | pyDataFrame df => exact absurd rfl (h df)
    | _ => rfl

/-- Witness for C9 at a concrete one-column DataFrame and a float. -/
theorem claim_C9_witness :
    init (.pyDataFrame ⟨["a"], [[1]]⟩) = .ok ⟨["a"], [[1]]⟩ ∧
    init (.pyFloat 0) = .error .notDataFrame :=
  ⟨(claim_C9 _).1 _ rfl, (claim_C9 _).2 (fun _ h => nomatch h)⟩

/-- C3: evaluation of `average_portfolio_values` at the failing input.
The claim (and the spec) say the weighted average over the selected
subset uses only the weight entries of that subset: on the label table
`[[1],[1],[0]]` with outcomes `[2,4,6]` and weights `[1,1,2]` that would
be `(1*2 + 1*4)/(1+1) = 3.0`.  The code instead passes the FULL weight
vector to `np.average` for the 2-element subset, so numpy raises its
length-compatibility `ValueError` — the code is a slip (with weights it
crashes for every portfolio that is a proper subset of the sample, and
works only when the portfolio is the whole sample, as in the spec's
`[2,4,6]`/`[1,1,2] → 4.5` example). -/
theorem claim_C3_eval :
    average_portfolio_values [[1], [1], [0]] [2, 4, 6] (some [1, 1, 2]) =
      .error .lengthMismatch := by
  norm_num [average_portfolio_values, avgLoop, entryOf, selOf, colOf, np_average,
    List.filterMap_cons, List.range_succ]

/-- C2 counterexample: on the label table `[[0],[0]]` (no observation
labeled 1) with `weight=None`, `average_portfolio_values` does NOT
raise any error, let alone an `EmptyPortfolioError` (no such class
exists in the code): it returns normally with a NaN average (`none` in
the embedding) for the empty portfolio. -/
theorem claim_C2_counterexample :
    average_portfolio_values [[0], [0]] [1, 2] none = .ok ([none], none) := by
  norm_num [average_portfolio_values, avgLoop, entryOf, selOf, colOf, np_mean,
    optSub, List.filterMap_cons, List.range_succ]

/-- C2 amended: with `weight=None` and at least one portfolio column,
`average_portfolio_values` always returns normally, and every column
whose selected subset is empty receives a silent NaN (`none`) average
instead of an exception. -/
theorem claim_C2_amended (labels : List (List ℚ)) (outcome : List ℚ)
    (hp : 0 < (labels.headD []).length) :
    ∃ avg hml, average_portfolio_values labels outcome none = .ok (avg, hml) ∧
      avg.length = (labels.headD []).length ∧
      ∀ i < (labels.headD []).length,
        selOf labels outcome i = [] → avg.getD i none = none := by
  have hloop := avgLoop_none_eq labels outcome (List.range (labels.headD []).length)
  set avg := (List.range (labels.headD []).length).map
    (fun i => np_mean (selOf labels outcome i)) with havg
  have hne : avg ≠ [] := by
    simp only [havg, ne_eq, List.map_eq_nil_iff, List.range_eq_nil]
    omega
  obtain ⟨a, ha⟩ := Option.isSome_iff_exists.mp (List.getLast?_isSome.mpr hne)
  obtain ⟨b, hb⟩ := Option.isSome_iff_exists.mp (List.head?_isSome.mpr hne)
  refine ⟨avg, optSub a b, avp_ok_of _ _ _ _ _ _ hloop ha hb,
    by simp only [havg, List.length_map, List.length_range], ?_⟩
  intro i hi hsel
  have hlen : i < avg.length := by
    simp only [havg, List.length_map, List.length_range]; omega
  rw [List.getD_eq_getElem _ _ hlen]
  simp only [havg, List.getElem_map, List.getElem_range, hsel]
  rfl

/-- Witness for the C2 amended claim at the counterexample's input. -/
theorem claim_C2_witness :
    ∃ avg hml, average_portfolio_values [[0], [0]] [1, 2] none = .ok (avg, hml) ∧
      avg.length = (([[0], [0]] : List (List ℚ)).headD []).length ∧
      ∀ i < (([[0], [0]] : List (List ℚ)).headD []).length,
        selOf [[0], [0]] [1, 2] i = [] → avg.getD i none = none :=
  claim_C2_amended [[0], [0]] [1, 2] (by norm_num)

/-- C8: whenever `average_portfolio_values` returns normally, the
returned HML spread equals the last entry of the returned average
vector minus its first entry (NaN-propagating subtraction `optSub`). -/
theorem claim_C8 (labels : List (List ℚ)) (outcome : List ℚ)
    (weight : Option (List ℚ)) (avg : List (Option ℚ)) (hml : Option ℚ)
    (h : average_portfolio_values labels outcome weight = .ok (avg, hml)) :
    avg ≠ [] ∧ hml = optSub (avg.getLastD none) (avg.headD none) := by
  simp only [average_portfolio_values] at h
  split at h
  · exact absurd h (by simp)
  · split at h
    · rename_i hlast hhead
      simp only [Except.ok.injEq, Prod.mk.injEq] at h
      obtain ⟨rfl, rfl⟩ := h
      refine ⟨?_, ?_⟩
      · intro hc; subst hc; simp at hhead
      · rw [List.getLastD_eq_getLast?, List.headD_eq_head?, hlast, hhead]
        rfl
    · exact absurd h (by simp)

/-- Witness for C8 on a one-column label table. -/
theorem claim_C8_witness :
    ([some (5:ℚ)] : List (Option ℚ)) ≠ [] ∧
      (some 0 : Option ℚ) =
        optSub (([some (5:ℚ)]).getLastD none) (([some (5:ℚ)]).headD none) :=
  claim_C8 [[1]] [5] none [some 5] (some 0)
    (by norm_num [average_portfolio_values, avgLoop, entryOf, selOf, colOf, np_mean,
      optSub, List.filterMap_cons, List.range_succ])

end PortfolioAnalysis
section InterpLemmas

lemma getD_mono_of_sorted {s : List ℚ} (hs : List.Sorted (· ≤ ·) s) {i j : ℕ}
    (hij : i ≤ j) (hj : j < s.length) : s.getD i 0 ≤ s.getD j 0 := by
  have hi : i < s.length := lt_of_le_of_lt hij hj
  rw [List.getD_eq_getElem _ _ hi, List.getD_eq_getElem _ _ hj]
  have := List.Sorted.rel_get_of_le hs (a := ⟨i, hi⟩) (b := ⟨j, hj⟩)
    (Fin.mk_le_mk.mpr hij)
  simpa using this

lemma interpAt_ge {s : List ℚ} (hs : List.Sorted (· ≤ ·) s) {h : ℚ} (h0 : 0 ≤ h)
    (hub : ⌊h⌋₊ < s.length) : s.getD ⌊h⌋₊ 0 ≤ interpAt s h := by
  unfold interpAt
  split
  · rename_i hlt
    have hfrac : 0 ≤ h - (⌊h⌋₊ : ℚ) := sub_nonneg.mpr (Nat.floor_le h0)
    have hdel : 0 ≤ s.getD (⌊h⌋₊ + 1) 0 - s.getD ⌊h⌋₊ 0 :=
      sub_nonneg.mpr (getD_mono_of_sorted hs (Nat.le_succ _) hlt)
    nlinarith [mul_nonneg hfrac hdel]
  · exact getD_mono_of_sorted hs (by omega) (by omega)

lemma interpAt_le_next {s : List ℚ} (hs : List.Sorted (· ≤ ·) s) {h : ℚ}
    (hi : ⌊h⌋₊ + 1 < s.length) : interpAt s h ≤ s.getD (⌊h⌋₊ + 1) 0 := by
  unfold interpAt
  rw [if_pos hi]
  have hfr : h - (⌊h⌋₊ : ℚ) ≤ 1 := by
    have := Nat.lt_floor_add_one h; linarith
  have hdel : 0 ≤ s.getD (⌊h⌋₊ + 1) 0 - s.getD ⌊h⌋₊ 0 :=
    sub_nonneg.mpr (getD_mono_of_sorted hs (Nat.le_succ _) hi)
  have hx := mul_nonneg (by linarith : (0:ℚ) ≤ 1 - (h - (⌊h⌋₊ : ℚ))) hdel
  nlinarith

lemma interpAt_mono {s : List ℚ} (hs : List.Sorted (· ≤ ·) s) (hne : s ≠ [])
    {h1 h2 : ℚ} (h0 : 0 ≤ h1) (h12 : h1 ≤ h2) (hub : h2 ≤ (s.length : ℚ) - 1) :
    interpAt s h1 ≤ interpAt s h2 := by
  have hNpos : 0 < s.length := List.length_pos.mpr hne
  have hcast : ((s.length - 1 : ℕ) : ℚ) = (s.length : ℚ) - 1 := by
    rw [Nat.cast_sub hNpos]; norm_num
  have hub2 : ⌊h2⌋₊ ≤ s.length - 1 := by
    have := Nat.floor_mono (hcast ▸ hub : h2 ≤ ((s.length - 1 : ℕ) : ℚ))
    simpa [Nat.floor_natCast] using this
  have hfm : ⌊h1⌋₊ ≤ ⌊h2⌋₊ := Nat.floor_mono h12
  rcases eq_or_lt_of_le hfm with heq | hlt
  · unfold interpAt
    rw [← heq]
    split
    · rename_i hlt2
      have hdel : 0 ≤ s.getD (⌊h1⌋₊ + 1) 0 - s.getD ⌊h1⌋₊ 0 :=
        sub_nonneg.mpr (getD_mono_of_sorted hs (Nat.le_succ _) hlt2)
      have hmul := mul_le_mul_of_nonneg_right
        (by linarith : h1 - (⌊h1⌋₊ : ℚ) ≤ h2 - (⌊h1⌋₊ : ℚ)) hdel
      linarith
    · exact le_refl _
  · have step1 : interpAt s h1 ≤ s.getD (⌊h1⌋₊ + 1) 0 :=
      interpAt_le_next hs (by omega)
    have step2 : s.getD (⌊h1⌋₊ + 1) 0 ≤ s.getD ⌊h2⌋₊ 0 :=
      getD_mono_of_sorted hs (by omega) (by omega)
    have step3 : s.getD ⌊h2⌋₊ 0 ≤ interpAt s h2 :=
      interpAt_ge hs (le_trans h0 h12) (by omega)
    linarith

lemma interp_mono {s : List ℚ} (hs : List.Sorted (· ≤ ·) s) (hne : s ≠ [])
    {q1 q2 : ℚ} (hq0 : 0 ≤ q1) (hq12 : q1 ≤ q2) (hq100 : q2 ≤ 100) :
    interp s q1 ≤ interp s q2 := by
  have hNpos : 0 < s.length := List.length_pos.mpr hne
  have hN1 : (0:ℚ) ≤ (s.length : ℚ) - 1 := by
    have : (1:ℚ) ≤ (s.length : ℚ) := by exact_mod_cast hNpos
    linarith
  unfold interp
  apply interpAt_mono hs hne
  · exact div_nonneg (mul_nonneg hN1 hq0) (by norm_num)
  · have := mul_le_mul_of_nonneg_left hq12 hN1
    linarith
  · have := mul_le_mul_of_nonneg_left hq100 hN1
    linarith

lemma sorted_map_interp {s qs : List ℚ} (hs : List.Sorted (· ≤ ·) s) (hne : s ≠ [])
    (hqs : List.Sorted (· ≤ ·) qs) (hbd : ∀ q ∈ qs, 0 ≤ q ∧ q ≤ 100) :
    List.Sorted (· ≤ ·) (qs.map (interp s)) := by
  rw [List.Sorted, List.pairwise_map]
  refine hqs.imp_of_mem ?_
  intro a b ha hb hab
  exact interp_mono hs hne (hbd a ha).1 hab (hbd b hb).2

end InterpLemmas

namespace PortfolioAnalysis

lemma mem_ensureZero {s : List ℚ} {q : ℚ} (hq : q ∈ ensureZero s) :
    q = 0 ∨ q ∈ s := by
  unfold ensureZero at hq
  split at hq
  · rcases List.mem_cons.mp hq with h | h
    · exact Or.inl h
    · exact Or.inr h
  · exact Or.inr hq

lemma mem_normalizeSpec {s : List ℚ} {q : ℚ} (hq : q ∈ normalizeSpec s) :
    q = 0 ∨ q = 100 ∨ q ∈ s := by
  unfold normalizeSpec at hq
  split at hq
  · rcases List.mem_append.mp hq with h | h
    · rcases mem_ensureZero h with h' | h'
      · exact Or.inl h'
      · exact Or.inr (Or.inr h')
    · exact Or.inr (Or.inl (List.mem_singleton.mp h))
  · rcases mem_ensureZero hq with h' | h'
    · exact Or.inl h'
    · exact Or.inr (Or.inr h')

lemma subset_normalizeSpec {s : List ℚ} {q : ℚ} (hq : q ∈ s) :
    q ∈ normalizeSpec s := by
  have h1 : q ∈ ensureZero s := by
    unfold ensureZero
    split
    · exact List.mem_cons_of_mem _ hq
    · exact hq
  unfold normalizeSpec
  split
  · exact List.mem_append_left _ h1
  · exact h1

lemma mem_normalizeSpec_bounds {s : List ℚ} (hbd : ∀ q ∈ s, 0 ≤ q ∧ q ≤ 100) :
    ∀ q ∈ normalizeSpec s, 0 ≤ q ∧ q ≤ 100 := by
  intro q hq
  rcases mem_normalizeSpec hq with rfl | rfl | h
  · norm_num
  · norm_num
  · exact hbd q h

lemma sorted_ensureZero {s : List ℚ} (hs : List.Sorted (· ≤ ·) s)
    (hbd : ∀ q ∈ s, 0 ≤ q) : List.Sorted (· ≤ ·) (ensureZero s) := by
  unfold ensureZero
  split
  · exact List.sorted_cons.mpr ⟨hbd, hs⟩
  · exact hs

lemma sorted_normalizeSpec {s : List ℚ} (hs : List.Sorted (· ≤ ·) s)
    (hbd : ∀ q ∈ s, 0 ≤ q ∧ q ≤ 100) :
    List.Sorted (· ≤ ·) (normalizeSpec s) := by
  have h1 : List.Sorted (· ≤ ·) (ensureZero s) :=
    sorted_ensureZero hs (fun q hq => (hbd q hq).1)
  unfold normalizeSpec
  split
  · rw [List.Sorted, List.pairwise_append]
    refine ⟨h1, List.pairwise_singleton _ _, ?_⟩
    intro a ha b hb
    rw [List.mem_singleton.mp hb]
    rcases mem_ensureZero ha with rfl | h
    · norm_num
    · exact (hbd a h).2
  · exact h1

lemma normalizeSpec_ne_nil {s : List ℚ} (hne : s ≠ []) :
    normalizeSpec s ≠ [] := by
  have h1 : ensureZero s ≠ [] := by
    unfold ensureZero
    split
    · simp
    · exact hne
  unfold normalizeSpec
  split
  · simp
  · exact h1

end PortfolioAnalysis

lemma npPercentile_ok {vals qs : List ℚ} (hvne : vals ≠ [])
    (hbd : ∀ q ∈ qs, 0 ≤ q ∧ q ≤ 100) :
    npPercentile vals qs = .ok (qs.map (interp (List.insertionSort (· ≤ ·) vals))) := by
  have h1 : qs.any (fun q => decide (q < 0) || decide (100 < q)) = false := by
    rw [List.any_eq_false]
    intro q hq
    simp only [Bool.or_eq_true, decide_eq_true_eq, not_or, not_lt]
    exact ⟨(hbd q hq).1, (hbd q hq).2⟩
  have h2 : vals.isEmpty = false := by
    rw [List.isEmpty_eq_false]
    exact hvne
  simp only [npPercentile, h1, h2, Bool.false_eq_true, if_false]

lemma npPercentile_ok_inv {vals qs bs : List ℚ}
    (h : npPercentile vals qs = .ok bs) :
    (∀ q ∈ qs, 0 ≤ q ∧ q ≤ 100) ∧ vals ≠ [] ∧
      bs = qs.map (interp (List.insertionSort (· ≤ ·) vals)) := by
  unfold npPercentile at h
  split at h
  · exact absurd h (by simp)
  · rename_i hany
    split at h
    · exact absurd h (by simp)
    · rename_i hemp
      refine ⟨?_, ?_, ?_⟩
      · intro q hq
        rw [Bool.not_eq_true, List.any_eq_false] at hany
        have := hany q hq
        simp only [Bool.or_eq_true, decide_eq_true_eq, not_or, not_lt] at this
        exact this
      · intro hc
        rw [Bool.not_eq_true, List.isEmpty_eq_false] at hemp
        exact hemp hc
      · exact (Except.ok.injEq _ _ ▸ h).symm
namespace PortfolioAnalysis

lemma insertionSort_ne_nil {l : List ℚ} (hlne : l ≠ []) :
    List.insertionSort (· ≤ ·) l ≠ [] := by
  intro hc
  have hp := List.perm_insertionSort (· ≤ ·) l
  rw [hc] at hp
  exact hlne hp.nil_eq.symm

lemma breakpointStep_ok {df : DataFrame} {f : String} {l vals : List ℚ}
    (hcol : df.col f = .ok vals) (hvne : vals ≠ []) (hlne : l ≠ [])
    (hbd : ∀ q ∈ l, 0 ≤ q ∧ q ≤ 100) :
    breakpointStep df (f, .pyList l) =
      .ok (f, (normalizeSpec (List.insertionSort (· ≤ ·) l)).map
        (interp (List.insertionSort (· ≤ ·) vals))) := by
  obtain ⟨a, as, hsort⟩ :=
    List.exists_cons_of_ne_nil (insertionSort_ne_nil hlne)
  have hbd' : ∀ q ∈ normalizeSpec (List.insertionSort (· ≤ ·) l),
      0 ≤ q ∧ q ≤ 100 :=
    mem_normalizeSpec_bounds
      (fun q hq => hbd q ((List.mem_insertionSort _).mp hq))
  simp only [breakpointStep, hsort]
  rw [← hsort]
  simp only [hcol, npPercentile_ok hvne hbd']

lemma breakpoint_singleton_ok {df : DataFrame} {fp : String × PyVal}
    {b : String × List ℚ} (h : breakpointStep df fp = .ok b) :
    breakpoint df [fp] = .ok [b] := by
  simp only [breakpoint, h]

lemma breakpoint_ok_mem {df : DataFrame} :
    ∀ {fps : List (String × PyVal)} {out : List (String × List ℚ)},
      breakpoint df fps = .ok out → ∀ b ∈ out,
        ∃ fp ∈ fps, breakpointStep df fp = .ok b := by
  intro fps
  induction fps with
  | nil =>
    intro out h b hb
    simp only [breakpoint, Except.ok.injEq] at h
    rw [← h] at hb
    exact absurd hb (List.not_mem_nil b)
  | cons fp rest ih =>
    intro out h b hb
    simp only [breakpoint] at h
    split at h
    · exact absurd h (by simp)
    · rename_i b' hstep
      split at h
      · exact absurd h (by simp)
      · rename_i bs hrest
        rw [Except.ok.injEq] at h
        rw [← h] at hb
        rcases List.mem_cons.mp hb with rfl | hmem
        · exact ⟨fp, List.mem_cons_self _ _, hstep⟩
        · obtain ⟨fp', hfp', hstep'⟩ := ih hrest b hmem
          exact ⟨fp', List.mem_cons_of_mem _ hfp', hstep'⟩

lemma breakpointStep_ok_inv {df : DataFrame} {fp : String × PyVal}
    {b : String × List ℚ} (h : breakpointStep df fp = .ok b) :
    ∃ l vals, fp.2 = .pyList l ∧ df.col fp.1 = .ok vals ∧
      npPercentile vals (normalizeSpec (List.insertionSort (· ≤ ·) l)) =
        .ok b.2 := by
  unfold breakpointStep at h
  split at h
  · rename_i l hl
    split at h
    · exact absurd h (by simp)
    · rename_i a as hsort
      split at h
      · exact absurd h (by simp)
      · rename_i vals hcol
        split at h
        · exact absurd h (by simp)
        · rename_i bs hnp
          rw [Except.ok.injEq] at h
          refine ⟨l, vals, hl, hcol, ?_⟩
          rw [hsort, ← h]
          exact hnp
  · exact absurd h (by simp)

end PortfolioAnalysis
namespace PortfolioAnalysis

lemma breakpointStep_notAList {df : DataFrame} {f : String} {v : PyVal}
    (hv : ∀ l, v ≠ .pyList l) :
    breakpointStep df (f, v) = .error .notAList := by
  cases v with
  | pyList l => exact absurd rfl (hv l)
  | _ => rfl

lemma npPercentile_range_error {vals qs : List ℚ}
    (h : ∃ q ∈ qs, q < 0 ∨ 100 < q) :
    npPercentile vals qs = .error .percentileRange := by
  unfold npPercentile
  rw [if_pos]
  obtain ⟨q, hq, hout⟩ := h
  refine List.any_eq_true.mpr ⟨q, hq, ?_⟩
  simp only [Bool.or_eq_true, decide_eq_true_eq]
  exact hout

lemma breakpointStep_range_error {df : DataFrame} {f : String} {l vals : List ℚ}
    (hcol : df.col f = .ok vals) (hlne : l ≠ [])
    (hq : ∃ q ∈ l, q < 0 ∨ 100 < q) :
    breakpointStep df (f, .pyList l) = .error .percentileRange := by
  obtain ⟨a, as, hsort⟩ :=
    List.exists_cons_of_ne_nil (insertionSort_ne_nil hlne)
  have hq' : ∃ q ∈ normalizeSpec (List.insertionSort (· ≤ ·) l), q < 0 ∨ 100 < q := by
    obtain ⟨q, hql, hout⟩ := hq
    exact ⟨q, subset_normalizeSpec ((List.mem_insertionSort _).mpr hql), hout⟩
  simp only [breakpointStep, hsort]
  rw [← hsort]
  simp only [hcol, npPercentile_range_error hq']

/-- C5: for every non-empty characteristic column and every non-empty
percentile list with entries in [0, 100], `breakpoint` sorts the list,
prepends 0 when the minimum is not 0 and appends 100 when the maximum is
not 100 (`normalizeSpec` of the sorted list), evaluates the empirical
percentile function (linear interpolation between order statistics) at
each normalized percentile, and returns an ascending array whose length
equals the length of the normalized spec; spec `[30, 70]` normalizes to
`[0, 30, 70, 100]` (4 breakpoints, 3 buckets) and spec `[50]` to
`[0, 50, 100]` (2 buckets). -/
theorem claim_C5 (df : DataFrame) (f : String) (l vals : List ℚ)
    (hcol : df.col f = .ok vals) (hvne : vals ≠ []) (hlne : l ≠ [])
    (hbd : ∀ q ∈ l, 0 ≤ q ∧ q ≤ 100) :
    (∃ bs, breakpoint df [(f, .pyList l)] = .ok [(f, bs)] ∧
      bs = (normalizeSpec (List.insertionSort (· ≤ ·) l)).map
        (interp (List.insertionSort (· ≤ ·) vals)) ∧
      bs.length = (normalizeSpec (List.insertionSort (· ≤ ·) l)).length ∧
      List.Sorted (· ≤ ·) bs) ∧
    normalizeSpec (List.insertionSort (· ≤ ·) [(30:ℚ), 70]) = [0, 30, 70, 100] ∧
    normalizeSpec (List.insertionSort (· ≤ ·) [(50:ℚ)]) = [0, 50, 100] := by
  have hbd' : ∀ q ∈ List.insertionSort (· ≤ ·) l, 0 ≤ q ∧ q ≤ 100 :=
    fun q hq => hbd q ((List.mem_insertionSort _).mp hq)
  refine ⟨⟨_, breakpoint_singleton_ok (breakpointStep_ok hcol hvne hlne hbd),
    rfl, by simp, ?_⟩, ?_, ?_⟩
  · exact sorted_map_interp (List.sorted_insertionSort _ _)
      (insertionSort_ne_nil hvne)
      (sorted_normalizeSpec (List.sorted_insertionSort _ _) hbd')
      (mem_normalizeSpec_bounds hbd')
  · norm_num [normalizeSpec, ensureZero, List.insertionSort, List.orderedInsert]
  · norm_num [normalizeSpec, ensureZero, List.insertionSort, List.orderedInsert]

/-- Witness for C5 at the dataframe `{"x": [7]}` and spec `[50]`. -/
theorem claim_C5_witness :
    (∃ bs, breakpoint ⟨["x"], [[7]]⟩ [("x", .pyList [50])] = .ok [("x", bs)] ∧
      bs = (normalizeSpec (List.insertionSort (· ≤ ·) [(50:ℚ)])).map
        (interp (List.insertionSort (· ≤ ·) [(7:ℚ)])) ∧
      bs.length = (normalizeSpec (List.insertionSort (· ≤ ·) [(50:ℚ)])).length ∧
      List.Sorted (· ≤ ·) bs) ∧
    normalizeSpec (List.insertionSort (· ≤ ·) [(30:ℚ), 70]) = [0, 30, 70, 100] ∧
    normalizeSpec (List.insertionSort (· ≤ ·) [(50:ℚ)]) = [0, 50, 100] :=
  claim_C5 ⟨["x"], [[7]]⟩ "x" [50] [7] rfl (by simp) (by simp)
    (by intro q hq; rw [List.mem_singleton] at hq; subst hq; norm_num)

/-- C7: every breakpoint set in a successful result of `breakpoint` is
non-decreasing: each breakpoint is less than or equal to the next. -/
theorem claim_C7 (df : DataFrame) (fps : List (String × PyVal))
    (out : List (String × List ℚ)) (f : String) (bs : List ℚ)
    (h : breakpoint df fps = .ok out) (hmem : (f, bs) ∈ out) :
    bs.Chain' (· ≤ ·) := by
  obtain ⟨fp, _, hstep⟩ := breakpoint_ok_mem h (f, bs) hmem
  obtain ⟨l, vals, _, _, hnp⟩ := breakpointStep_ok_inv hstep
  obtain ⟨hbd, hvne, hbs⟩ := npPercentile_ok_inv hnp
  have hbd' : ∀ q ∈ List.insertionSort (· ≤ ·) l, 0 ≤ q ∧ q ≤ 100 :=
    fun q hq => hbd q (subset_normalizeSpec hq)
  have hsorted : List.Sorted (· ≤ ·) bs := by
    rw [show bs = (f, bs).2 from rfl, hbs]
    exact sorted_map_interp (List.sorted_insertionSort _ _)
      (insertionSort_ne_nil hvne)
      (sorted_normalizeSpec (List.sorted_insertionSort _ _) hbd')
      (mem_normalizeSpec_bounds hbd')
  exact List.chain'_iff_pairwise.mpr hsorted

/-- Witness for C7: the breakpoints of `{"x": [7]}` under spec `[50]`. -/
theorem claim_C7_witness : List.Chain' (· ≤ ·) [(7:ℚ), 7, 7] :=
  claim_C7 ⟨["x"], [[7]]⟩ [("x", .pyList [50])] [("x", [7, 7, 7])] "x" [7, 7, 7]
    (by norm_num [breakpoint, breakpointStep, npPercentile, normalizeSpec,
      ensureZero, interp, interpAt, List.insertionSort, List.orderedInsert,
      DataFrame.col, List.findIdx?_cons])
    (by simp)

/-- C6 counterexample: the duplicate percentile spec `[30, 30]` is NOT
rejected: `breakpoint` silently accepts it and returns a breakpoint set
(with a duplicated breakpoint), refuting the claim that duplicate
percentile values are not silently accepted inputs. -/
theorem claim_C6_counterexample :
    breakpoint ⟨["x"], [[7]]⟩ [("x", .pyList [30, 30])] =
      .ok [("x", [7, 7, 7, 7])] := by
  norm_num [breakpoint, breakpointStep, npPercentile, normalizeSpec,
    ensureZero, interp, interpAt, List.insertionSort, List.orderedInsert,
    DataFrame.col, List.findIdx?_cons]

/-- C6 amended: `breakpoint` raises an explicit error (a `ValueError`)
when the spec is not a list, and numpy's range `ValueError` when the
spec contains a value outside [0, 100]; duplicate percentile values,
however, are silently accepted and produce a breakpoint set. -/
theorem claim_C6_amended :
    (∀ (df : DataFrame) (f : String) (v : PyVal) (rest : List (String × PyVal)),
      (∀ l, v ≠ .pyList l) →
      breakpoint df ((f, v) :: rest) = .error .notAList) ∧
    (∀ (df : DataFrame) (f : String) (l vals : List ℚ), df.col f = .ok vals →
      l ≠ [] → (∃ q ∈ l, q < 0 ∨ 100 < q) →
      breakpoint df [(f, .pyList l)] = .error .percentileRange) ∧
    (∀ (df : DataFrame) (f : String) (vals : List ℚ) (q : ℚ),
      df.col f = .ok vals → vals ≠ [] → 0 ≤ q → q ≤ 100 →
      ∃ bs, breakpoint df [(f, .pyList [q, q])] = .ok bs) := by
  refine ⟨?_, ?_, ?_⟩
  · intro df f v rest hv
    simp only [breakpoint, breakpointStep_notAList hv]
  · intro df f l vals hcol hlne hq
    simp only [breakpoint, breakpointStep_range_error hcol hlne hq]
  · intro df f vals q hcol hvne h0 h100
    exact ⟨_, breakpoint_singleton_ok (breakpointStep_ok hcol hvne (by simp)
      (by intro q' hq'; rcases List.mem_cons.mp hq' with rfl | hq''
          · exact ⟨h0, h100⟩
          · rw [List.mem_singleton] at hq''; subst hq''; exact ⟨h0, h100⟩))⟩

/-- Witness for the C6 amended claim at concrete inputs: a string spec
raises, an out-of-range spec `[150]` raises, and the duplicate spec
`[30, 30]` is accepted. -/
theorem claim_C6_witness :
    breakpoint ⟨["x"], [[7]]⟩ [("x", .pyStr "s")] = .error .notAList ∧
    breakpoint ⟨["x"], [[7]]⟩ [("x", .pyList [150])] = .error .percentileRange ∧
    ∃ bs, breakpoint ⟨["x"], [[7]]⟩ [("x", .pyList [30, 30])] = .ok bs :=
  ⟨claim_C6_amended.1 ⟨["x"], [[7]]⟩ "x" (.pyStr "s") []
      (fun l h => PyVal.noConfusion h),
    claim_C6_amended.2.1 ⟨["x"], [[7]]⟩ "x" [150] [7] rfl (by simp)
      ⟨150, by simp, by norm_num⟩,
    claim_C6_amended.2.2 ⟨["x"], [[7]]⟩ "x" [7] 30 rfl (by simp)
      (by norm_num) (by norm_num)⟩

/-- C10: when every supplied percentile spec is a list with entries in
[0, 100], every referenced column exists and is non-empty, and some
characteristic's percentile list is empty, `breakpoint` fails with an
uncaught `IndexError` (indexing the first element of the sorted empty
list), not with one of the documented errors and not with a result. -/
theorem claim_C10 (df : DataFrame) (fps : List (String × PyVal))
    (hall : ∀ fp ∈ fps, ∃ l, fp.2 = .pyList l ∧ ∀ q ∈ l, 0 ≤ q ∧ q ≤ 100)
    (hcols : ∀ fp ∈ fps, ∃ vals, df.col fp.1 = .ok vals ∧ vals ≠ [])
    (hempty : ∃ fp ∈ fps, fp.2 = .pyList []) :
    breakpoint df fps = .error .indexError := by
  induction fps with
  | nil =>
    obtain ⟨fp, hfp, _⟩ := hempty
    exact absurd hfp (List.not_mem_nil _)
  | cons fp rest ih =>
    obtain ⟨l, hl, hbd⟩ := hall fp (List.mem_cons_self _ _)
    obtain ⟨f, v⟩ := fp
    simp only at hl
    subst hl
    by_cases hle : l = []
    · subst hle
      simp only [breakpoint]
      rfl
    · obtain ⟨vals, hcol, hvne⟩ := hcols (f, .pyList l) (List.mem_cons_self _ _)
      have hstep := breakpointStep_ok (f := f) hcol hvne hle hbd
      have hrest : breakpoint df rest = .error .indexError := by
        apply ih
        · intro fp' h'; exact hall fp' (List.mem_cons_of_mem _ h')
        · intro fp' h'; exact hcols fp' (List.mem_cons_of_mem _ h')
        · obtain ⟨fp', hfp', he⟩ := hempty
          rcases List.mem_cons.mp hfp' with rfl | hmem
          · simp only at he
            injection he with h2
            exact absurd h2 hle
          · exact ⟨fp', hmem, he⟩
      simp only [breakpoint, hstep, hrest]

/-- Witness for C10: the second characteristic's spec is the empty
list; `breakpoint` raises `IndexError`. -/
theorem claim_C10_witness :
    breakpoint ⟨["x"], [[7]]⟩ [("x", .pyList [50]), ("x", .pyList [])] =
      .error .indexError :=
  claim_C10 ⟨["x"], [[7]]⟩ [("x", .pyList [50]), ("x", .pyList [])]
    (by
      intro fp hfp
      rcases List.mem_cons.mp hfp with rfl | hfp'
      · refine ⟨[50], rfl, ?_⟩
        intro q hq
        rw [List.mem_singleton] at hq
        subst hq
        norm_num
      · rw [List.mem_singleton] at hfp'
        subst hfp'
        exact ⟨[], rfl, by simp⟩)
    (by
      intro fp hfp
      rcases List.mem_cons.mp hfp with rfl | hfp'
      · exact ⟨[7], rfl, by simp⟩
      · rw [List.mem_singleton] at hfp'
        subst hfp'
        exact ⟨[7], rfl, by simp⟩)
    ⟨("x", .pyList []), by simp, rfl⟩

end PortfolioAnalysis
namespace PortfolioAnalysis

lemma mem_productRanges_length : ∀ {ks : List ℕ} {c : List ℕ},
    c ∈ productRanges ks → c.length = ks.length
  | [], c, hc => by
    simp only [productRanges, List.mem_singleton] at hc
    subst hc; rfl
  | k :: ks, c, hc => by
    simp only [productRanges, List.mem_flatMap] at hc
    obtain ⟨i, hi, hc'⟩ := hc
    rw [List.mem_map] at hc'
    obtain ⟨t, ht, rfl⟩ := hc'
    simp [mem_productRanges_length ht]

lemma productRanges_length : ∀ ks : List ℕ,
    (productRanges ks).length = prodNat ks
  | [] => rfl
  | k :: ks => by
    simp only [productRanges, List.length_flatMap]
    have hfun : (List.length ∘ fun i : ℕ => (productRanges ks).map (i :: ·)) =
        fun _ : ℕ => prodNat ks := by
      funext i
      simp [productRanges_length ks]
    rw [hfun, List.map_const', List.length_range, List.sum_replicate, smul_eq_mul]
    rfl

lemma flatMap_blocks_length {g : ℕ → List (List ℕ)} {B : ℕ}
    (hg : ∀ i, (g i).length = B) (k : ℕ) :
    ((List.range k).flatMap g).length = k * B := by
  rw [List.length_flatMap]
  have hfun : (List.length ∘ g) = fun _ : ℕ => B := funext fun i => hg i
  rw [hfun, List.map_const', List.length_range, List.sum_replicate, smul_eq_mul]

lemma flatMap_blocks_getD {g : ℕ → List (List ℕ)} {B : ℕ}
    (hg : ∀ i, (g i).length = B) :
    ∀ k i j : ℕ, i < k → j < B →
      (((List.range k).flatMap g).getD (i * B + j) []) = (g i).getD j []
  | 0, i, j, hi, _ => absurd hi (Nat.not_lt_zero i)
  | k + 1, i, j, hi, hj => by
    rw [List.range_succ, List.flatMap_append]
    rcases Nat.lt_succ_iff_lt_or_eq.mp hi with hik | rfl
    · have hidx : i * B + j < ((List.range k).flatMap g).length := by
        rw [flatMap_blocks_length hg]
        calc i * B + j < i * B + B := by omega
          _ = (i + 1) * B := by ring
          _ ≤ k * B := Nat.mul_le_mul_right B hik
      have htot : i * B + j < (((List.range k).flatMap g) ++ [k].flatMap g).length := by
        rw [List.length_append]; omega
      rw [List.getD_eq_getElem _ _ htot, List.getElem_append_left hidx]
      rw [← List.getD_eq_getElem]
      exact flatMap_blocks_getD hg k i j hik hj
    · have hpre : ((List.range i).flatMap g).length = i * B :=
        flatMap_blocks_length hg i
      have hsing : ([i].flatMap g) = g i ++ [] := by
        simp [List.flatMap_cons]
      have hglen : j < (([i].flatMap g)).length := by
        rw [hsing, List.append_nil, hg]; exact hj
      have htot : i * B + j <
          (((List.range i).flatMap g) ++ [i].flatMap g).length := by
        rw [List.length_append, hpre]; omega
      rw [List.getD_eq_getElem _ _ htot,
        List.getElem_append_right (by omega : ((List.range i).flatMap g).length ≤ i * B + j)]
      have : i * B + j - ((List.range i).flatMap g).length = j := by
        rw [hpre]; omega
      simp only [this]
      rw [← List.getD_eq_getElem, hsing, List.append_nil]

lemma productRanges_cons_getD {ks : List ℕ} {k i j : ℕ} (hi : i < k)
    (hj : j < prodNat ks) :
    (productRanges (k :: ks)).getD (i * prodNat ks + j) [] =
      i :: (productRanges ks).getD j [] := by
  have hg : ∀ x : ℕ, ((productRanges ks).map (x :: ·)).length = prodNat ks := by
    intro x
    rw [List.length_map, productRanges_length]
  rw [show productRanges (k :: ks) = (List.range k).flatMap
      (fun x => (productRanges ks).map (x :: ·)) from rfl,
    flatMap_blocks_getD hg k i j hi hj]
  have hjm : j < ((productRanges ks).map (i :: ·)).length := by
    rw [hg]; exact hj
  rw [List.getD_eq_getElem _ _ hjm, List.getElem_map,
    List.getD_eq_getElem _ _ (by rw [productRanges_length]; exact hj)]

lemma rowLabel_eq_countP (r s e : List ℚ) :
    rowLabel r s e = (r.zip (s.zip e)).countP
      (fun vse => decide (vse.2.1 ≤ vse.1) && decide (vse.1 ≤ vse.2.2)) := rfl

lemma rowLabel_ne_zero_iff {r s e : List ℚ} (hrs : s.length = r.length)
    (hre : e.length = r.length) :
    rowLabel r s e ≠ 0 ↔
      ∃ j < r.length, s.getD j 0 ≤ r.getD j 0 ∧ r.getD j 0 ≤ e.getD j 0 := by
  have hzlen : (r.zip (s.zip e)).length = r.length := by
    rw [List.length_zip, List.length_zip, hrs, hre]
    omega
  have hpos := List.countP_pos_iff (l := r.zip (s.zip e))
    (p := fun vse => decide (vse.2.1 ≤ vse.1) && decide (vse.1 ≤ vse.2.2))
  rw [rowLabel_eq_countP]
  constructor
  · intro hne
    obtain ⟨a, ha, hp⟩ := hpos.mp (Nat.pos_of_ne_zero hne)
    obtain ⟨n, hn, hna⟩ := List.mem_iff_getElem.mp ha
    have hnr : n < r.length := hzlen ▸ hn
    have hns : n < s.length := by omega
    have hne2 : n < e.length := by omega
    have hzn : n < (s.zip e).length := by
      rw [List.length_zip]; omega
    rw [List.getElem_zip] at hna
    rw [← hna] at hp
    simp only [List.getElem_zip, Bool.and_eq_true, decide_eq_true_eq] at hp
    refine ⟨n, hnr, ?_, ?_⟩
    · rw [List.getD_eq_getElem _ _ hns, List.getD_eq_getElem _ _ hnr]
      exact hp.1
    · rw [List.getD_eq_getElem _ _ hne2, List.getD_eq_getElem _ _ hnr]
      exact hp.2
  · rintro ⟨j, hj, h1, h2⟩
    have hjs : j < s.length := by omega
    have hje : j < e.length := by omega
    have hjz : j < (r.zip (s.zip e)).length := by omega
    refine Nat.pos_iff_ne_zero.mp (hpos.mpr ⟨(r.zip (s.zip e))[j],
      List.getElem_mem hjz, ?_⟩)
    rw [List.getD_eq_getElem _ _ hjs, List.getD_eq_getElem _ _ hj] at h1
    rw [List.getD_eq_getElem _ _ hje, List.getD_eq_getElem _ _ hj] at h2
    simp only [List.getElem_zip, Bool.and_eq_true, decide_eq_true_eq]
    exact ⟨h1, h2⟩

lemma portfolio_formation_getD {df : DataFrame} {bps : List (String × List ℚ)}
    {ri ci : ℕ} (hri : ri < df.rows.length)
    (hci : ci < prodNat (bps.map (fun fb => fb.2.length - 1))) :
    ((portfolio_formation df bps).getD ri []).getD ci 0 =
      rowLabel (df.rows.getD ri [])
        (bucketStarts bps
          ((productRanges (bps.map (fun fb => fb.2.length - 1))).getD ci []))
        (bucketEnds bps
          ((productRanges (bps.map (fun fb => fb.2.length - 1))).getD ci [])) := by
  unfold portfolio_formation
  have hri' : ri < (df.rows.map (fun r =>
      (productRanges (bps.map (fun fb => fb.2.length - 1))).map
        (fun c => rowLabel r (bucketStarts bps c) (bucketEnds bps c)))).length := by
    rw [List.length_map]; exact hri
  rw [List.getD_eq_getElem _ _ hri', List.getElem_map]
  have hci' : ci < ((productRanges (bps.map (fun fb => fb.2.length - 1))).map
      (fun c => rowLabel (df.rows[ri]) (bucketStarts bps c) (bucketEnds bps c))).length := by
    rw [List.length_map, productRanges_length]; exact hci
  rw [List.getD_eq_getElem _ _ hci', List.getElem_map]
  rw [List.getD_eq_getElem _ _ hri,
    List.getD_eq_getElem _ _ (by rw [productRanges_length]; exact hci)]

/-- C1 counterexample: with two characteristics `a` (buckets `[0,4]`,
`[4,10]`) and `b` (buckets `[0,60]`, `[60,100]`) and the single
observation `(a, b) = (5, 50)`, the first column — the combination
requiring `a ∈ [0,4]` and `b ∈ [0,60]` — holds the nonzero entry 1 even
though `a = 5` does not lie in `[0,4]`: a nonzero entry does NOT imply
that every characteristic falls within the combination's interval. -/
theorem claim_C1_counterexample :
    portfolio_formation ⟨["a", "b"], [[5, 50]]⟩
        [("a", [0, 4, 10]), ("b", [0, 60, 100])] = [[1, 0, 2, 1]] ∧
      ¬((0:ℚ) ≤ 5 ∧ (5:ℚ) ≤ 4) := by
  constructor
  · norm_num [portfolio_formation, productRanges, rowLabel, bucketStarts,
      bucketEnds, List.range_succ, List.flatMap_cons, List.countP_cons,
      List.countP_nil]
  · norm_num

/-- C1 amended: the entry of the label table at observation `ri` and
combination column `ci` equals the COUNT of characteristics whose value
falls (inclusive on both ends) within that combination's breakpoint
interval, where the combinations are enumerated as the Cartesian product
of bucket index ranges in `itertools.product` order; consequently the
entry is nonzero iff AT LEAST ONE (not every) characteristic falls
within its interval. -/
theorem claim_C1_amended (df : DataFrame) (bps : List (String × List ℚ))
    (ri ci : ℕ) (hri : ri < df.rows.length)
    (hlen : (df.rows.getD ri []).length = bps.length)
    (hci : ci < prodNat (bps.map (fun fb => fb.2.length - 1))) :
    ((portfolio_formation df bps).getD ri []).getD ci 0 =
      rowLabel (df.rows.getD ri [])
        (bucketStarts bps
          ((productRanges (bps.map (fun fb => fb.2.length - 1))).getD ci []))
        (bucketEnds bps
          ((productRanges (bps.map (fun fb => fb.2.length - 1))).getD ci [])) ∧
    (((portfolio_formation df bps).getD ri []).getD ci 0 ≠ 0 ↔
      ∃ j < bps.length,
        (bucketStarts bps
            ((productRanges (bps.map (fun fb => fb.2.length - 1))).getD ci [])).getD j 0
          ≤ (df.rows.getD ri []).getD j 0 ∧
        (df.rows.getD ri []).getD j 0
          ≤ (bucketEnds bps
            ((productRanges (bps.map (fun fb => fb.2.length - 1))).getD ci [])).getD j 0) := by
  have hc : (productRanges (bps.map (fun fb => fb.2.length - 1))).getD ci [] ∈
      productRanges (bps.map (fun fb => fb.2.length - 1)) := by
    rw [List.getD_eq_getElem _ _ (by rw [productRanges_length]; exact hci)]
    exact List.getElem_mem _
  have hclen : ((productRanges (bps.map (fun fb => fb.2.length - 1))).getD ci []).length
      = bps.length := by
    rw [mem_productRanges_length hc, List.length_map]
  have hslen : (bucketStarts bps
      ((productRanges (bps.map (fun fb => fb.2.length - 1))).getD ci [])).length
      = (df.rows.getD ri []).length := by
    unfold bucketStarts
    rw [List.length_map, List.length_zip, hclen, hlen]
    omega
  have helen : (bucketEnds bps
      ((productRanges (bps.map (fun fb => fb.2.length - 1))).getD ci [])).length
      = (df.rows.getD ri []).length := by
    unfold bucketEnds
    rw [List.length_map, List.length_zip, hclen, hlen]
    omega
  refine ⟨portfolio_formation_getD hri hci, ?_⟩
  rw [portfolio_formation_getD hri hci, rowLabel_ne_zero_iff hslen helen, hlen]

/-- Witness for the C1 amended claim at the counterexample's inputs
(observation `(5, 50)`, first bucket combination). -/
theorem claim_C1_witness :
    ((portfolio_formation ⟨["a", "b"], [[5, 50]]⟩
        [("a", [0, 4, 10]), ("b", [0, 60, 100])]).getD 0 []).getD 0 0 =
      rowLabel ((⟨["a", "b"], [[5, 50]]⟩ : DataFrame).rows.getD 0 [])
        (bucketStarts [("a", [0, 4, 10]), ("b", [0, 60, 100])]
          ((productRanges ([("a", [(0:ℚ), 4, 10]), ("b", [0, 60, 100])].map
            (fun fb => fb.2.length - 1))).getD 0 []))
        (bucketEnds [("a", [0, 4, 10]), ("b", [0, 60, 100])]
          ((productRanges ([("a", [(0:ℚ), 4, 10]), ("b", [0, 60, 100])].map
            (fun fb => fb.2.length - 1))).getD 0 [])) ∧
    (((portfolio_formation ⟨["a", "b"], [[5, 50]]⟩
        [("a", [0, 4, 10]), ("b", [0, 60, 100])]).getD 0 []).getD 0 0 ≠ 0 ↔
      ∃ j < ([("a", [(0:ℚ), 4, 10]), ("b", [0, 60, 100])]).length,
        (bucketStarts [("a", [0, 4, 10]), ("b", [0, 60, 100])]
            ((productRanges ([("a", [(0:ℚ), 4, 10]), ("b", [0, 60, 100])].map
              (fun fb => fb.2.length - 1))).getD 0 [])).getD j 0
          ≤ (((⟨["a", "b"], [[5, 50]]⟩ : DataFrame)).rows.getD 0 []).getD j 0 ∧
        (((⟨["a", "b"], [[5, 50]]⟩ : DataFrame)).rows.getD 0 []).getD j 0
          ≤ (bucketEnds [("a", [0, 4, 10]), ("b", [0, 60, 100])]
            ((productRanges ([("a", [(0:ℚ), 4, 10]), ("b", [0, 60, 100])].map
              (fun fb => fb.2.length - 1))).getD 0 [])).getD j 0) :=
  claim_C1_amended ⟨["a", "b"], [[5, 50]]⟩
    [("a", [0, 4, 10]), ("b", [0, 60, 100])] 0 0
    (by norm_num) rfl (by norm_num [prodNat])

end PortfolioAnalysis
namespace PortfolioAnalysis

lemma flatMap_singleton_map : ∀ l : List ℕ,
    (l.flatMap (fun i => [[i]])) = l.map (fun i => [i])
  | [] => rfl
  | x :: xs => by
    simp only [List.flatMap_cons, flatMap_singleton_map xs]
    rfl

lemma productRanges_single (k : ℕ) :
    productRanges [k] = (List.range k).map (fun i => [i]) := by
  show (List.range k).flatMap (fun i => (productRanges []).map (i :: ·)) = _
  exact flatMap_singleton_map _

lemma portfolio_formation_univariate {df : DataFrame} {f : String} {b : List ℚ}
    {v : ℚ} {ri ci : ℕ} (hri : ri < df.rows.length)
    (hrow : df.rows.getD ri [] = [v]) (hci : ci < b.length - 1) :
    ((portfolio_formation df [(f, b)]).getD ri []).getD ci 0 =
      if b.getD ci 0 ≤ v ∧ v ≤ b.getD (ci + 1) 0 then 1 else 0 := by
  have hprod : prodNat ([(f, b)].map (fun fb => fb.2.length - 1)) = b.length - 1 := by
    simp [prodNat]
  rw [portfolio_formation_getD hri (by rw [hprod]; exact hci), hrow]
  have hcomb : (productRanges ([(f, b)].map (fun fb => fb.2.length - 1))).getD ci []
      = [ci] := by
    have hlm : ([(f, b)].map (fun fb => fb.2.length - 1)) = [b.length - 1] := rfl
    rw [hlm, productRanges_single]
    have hci' : ci < ((List.range (b.length - 1)).map (fun i => [i])).length := by
      rw [List.length_map, List.length_range]; exact hci
    rw [List.getD_eq_getElem _ _ hci', List.getElem_map, List.getElem_range]
  rw [hcomb]
  show rowLabel [v] [b.getD ci 0] [b.getD (ci + 1) 0] = _
  rw [rowLabel_eq_countP]
  simp only [List.zip_cons_cons, List.zip_nil_right, List.countP_cons,
    List.countP_nil, Bool.and_eq_true, decide_eq_true_eq, Nat.zero_add]

/-- C4 counterexample: with breakpoints `[0, 5, 10]` and the single
observation whose characteristic value is exactly the interior
breakpoint 5, BOTH columns of the label table hold a nonzero entry
(the intervals `[0,5]` and `[5,10]` are each inclusive on both ends and
no first-match tie-break exists), refuting the claim that such an
observation is assigned to the lower bucket only. -/
theorem claim_C4_counterexample :
    portfolio_formation ⟨["x"], [[5]]⟩ [("x", [0, 5, 10])] = [[1, 1]] ∧
      ((0:ℚ) ≤ 5 ∧ (5:ℚ) ≤ 5) ∧ ((5:ℚ) ≤ 5 ∧ (5:ℚ) ≤ 10) := by
  refine ⟨?_, by norm_num, by norm_num⟩
  norm_num [portfolio_formation, productRanges, rowLabel, bucketStarts,
    bucketEnds, List.range_succ, List.flatMap_cons, List.countP_cons,
    List.countP_nil]

/-- C4 amended: in a univariate sort with non-decreasing breakpoints, an
observation whose value equals the interior breakpoint at position `t`
receives a nonzero membership entry in BOTH the column of the bucket
below (`t - 1`) and the column of the bucket above (`t`): membership is
inclusive on both ends per column and columns are filled independently,
with no first-match tie-break. -/
theorem claim_C4_amended (df : DataFrame) (f : String) (b : List ℚ) (t ri : ℕ)
    (hri : ri < df.rows.length) (ht0 : 0 < t) (ht1 : t + 1 < b.length)
    (hrow : df.rows.getD ri [] = [b.getD t 0])
    (hlo : b.getD (t - 1) 0 ≤ b.getD t 0)
    (hhi : b.getD t 0 ≤ b.getD (t + 1) 0) :
    ((portfolio_formation df [(f, b)]).getD ri []).getD (t - 1) 0 ≠ 0 ∧
    ((portfolio_formation df [(f, b)]).getD ri []).getD t 0 ≠ 0 := by
  constructor
  · rw [portfolio_formation_univariate hri hrow (by omega)]
    rw [show t - 1 + 1 = t from by omega]
    rw [if_pos ⟨hlo, le_refl _⟩]
    exact one_ne_zero
  · rw [portfolio_formation_univariate hri hrow (by omega)]
    rw [if_pos ⟨le_refl _, hhi⟩]
    exact one_ne_zero

/-- Witness for the C4 amended claim: breakpoints `[0, 5, 10]`,
observation value 5 (the interior breakpoint, `t = 1`). -/
theorem claim_C4_witness :
    ((portfolio_formation ⟨["x"], [[5]]⟩ [("x", [0, 5, 10])]).getD 0 []).getD
        (1 - 1) 0 ≠ 0 ∧
    ((portfolio_formation ⟨["x"], [[5]]⟩ [("x", [0, 5, 10])]).getD 0 []).getD
        1 0 ≠ 0 :=
  claim_C4_amended ⟨["x"], [[5]]⟩ "x" [0, 5, 10] 1 0 (by norm_num)
    (by norm_num) (by norm_num) rfl
    (by show (0:ℚ) ≤ 5; norm_num) (by show (5:ℚ) ≤ 10; norm_num)

end PortfolioAnalysis
